import Mathlib

/-!
Verification development for the aichat repository's streaming chat pipeline.

The embedding works over `List Char` (JS strings) and `List Nat` (byte buffers).
Byte chunks read from the network are modelled as character sequences: the
client uses `TextDecoder.decode(value, \x7bstream: true\x7d)`, which buffers
incomplete UTF-8 sequences, so the concatenation of the decoded strings equals
the decoding of the concatenated bytes; chunk boundaries therefore act at
character granularity.

JSON parsing of an event payload (`JSON.parse` plus the `data?.content`
field access) is modelled by an abstract function
`parse : List Char → Option (List Char)`: `some c` means the payload parsed
and carried a string `content` field equal to `c`; `none` means the parse
threw or the parsed value carried no content field.  The decoder theorems are
universally quantified over this function.
-/

namespace Aichat

abbrev Chars := List Char

/-- JS `String.prototype.trim` whitespace test (ASCII part). -/
def isWS (c : Char) : Bool :=
  c == ' ' || c == '\t' || c == '\n' || c == '\r' || c == '\x0b' || c == '\x0c'

/-- JS `s.trim()`: drop whitespace from both ends. -/
def trimChars (l : Chars) : Chars :=
  ((l.dropWhile isWS).reverse.dropWhile isWS).reverse

/-- JS `s.split(sep)` for a single-character separator: keeps empty segments,
`"".split` gives `[""]`. -/
def splitOnChar (sep : Char) : Chars → List Chars
  | [] => [[]]
  | c :: cs =>
    if c = sep then [] :: splitOnChar sep cs
    else
      match splitOnChar sep cs with
      | [] => [[c]]
      | l :: ls => (c :: l) :: ls

/-- JS `buffer.indexOf(delim)` + `slice`: split a string at the leftmost
occurrence of `delim`, returning the part before and the part after it. -/
def splitFirst (delim : Chars) : Chars → Option (Chars × Chars)
  | [] => none
  | c :: cs =>
    if (c :: cs).take delim.length = delim then
      some ([], (c :: cs).drop delim.length)
    else
      match splitFirst delim cs with
      | some (pre, post) => some (c :: pre, post)
      | none => none

/-- The SSE event delimiter `"\n\n"`. -/
def nl2 : Chars := ['\n', '\n']

/-- The SSE payload line marker `"data: "`. -/
def dataMark : Chars := "data: ".toList

/-!
## Client-side streaming response decoder
Embeds `src/hooks/use-chat.ts`, `sendMessage`, lines 125-185.
-/

/-- One line of an event block (use-chat.ts lines 144-159): trim, check the
`"data: "` marker, `slice(6)`, `JSON.parse`, and on a truthy `content` field
append it to the accumulator.  Parse failures are swallowed. -/
def processLine (parse : Chars → Option Chars) (acc : Chars) (raw : Chars) : Chars :=
  let line := trimChars raw
  if line.take 6 = dataMark then
    match parse (line.drop 6) with
    | some c => if c.isEmpty then acc else acc ++ c
    | none => acc
  else acc

/-- One event block (use-chat.ts lines 143-160): `eventBlock.split("\n")` and
process each line. -/
def processBlock (parse : Chars → Option Chars) (acc : Chars) (block : Chars) : Chars :=
  List.foldl (processLine parse) acc (splitOnChar '\n' block)

/-- Fuel-indexed worker for the inner `while ((sepIndex = buffer.indexOf("\n\n")) !== -1)`
loop (use-chat.ts lines 138-161): repeatedly extract the leading complete event
block and fold it into the accumulator.  Each iteration removes at least the
two delimiter characters, so `buffer.length` fuel always suffices. -/
def drainFuel (parse : Chars → Option Chars) : Nat → Chars → Chars → Chars × Chars
  | 0, buffer, acc => (buffer, acc)
  | n + 1, buffer, acc =>
    match splitFirst nl2 buffer with
    | some (block, rest) => drainFuel parse n rest (processBlock parse acc block)
    | none => (buffer, acc)

/-- The inner delimiter-extraction loop of the decoder. -/
def drainBuffer (parse : Chars → Option Chars) (buffer acc : Chars) : Chars × Chars :=
  drainFuel parse buffer.length buffer acc

/-- One `reader.read()` iteration (use-chat.ts lines 131-162): append the
decoded chunk to the buffer and extract every complete event. -/
def feedChunk (parse : Chars → Option Chars) (s : Chars × Chars) (chunk : Chars) : Chars × Chars :=
  drainBuffer parse (s.1 ++ chunk) s.2

/-- The whole decoder loop of `sendMessage` (use-chat.ts lines 125-185):
fold every chunk through the buffer, then process the residual buffer with the
same per-line rule (`processBlock`) when its trimmed form is nonempty
(lines 164-184). -/
def runDecoder (parse : Chars → Option Chars) (chunks : List Chars) : Chars :=
  let s := List.foldl (feedChunk parse) ([], []) chunks
  if (trimChars s.1).isEmpty then s.2 else processBlock parse s.2 s.1

/-!
## Orchestrator entry guards
Embeds `src/hooks/use-chat.ts`, `sendMessage`, lines 46-59:
```
if (!content.trim() && (!imageUrls || imageUrls.length === 0)) return
if (isLoading) return
if (abortControllerRef.current) abortControllerRef.current.abort()
const abortController = new AbortController() ...
```
-/

/-- Observable outcome of the entry of `sendMessage`: whether the call
proceeds with a new turn, and whether it aborted a previously stored
abort controller on the way. -/
structure SendEntry where
  proceeds : Bool
  abortedPrior : Bool
deriving DecidableEq, Repr

/-- Entry control flow of `sendMessage` (use-chat.ts lines 46-59). -/
def sendMessageEntry (content : Chars) (imageUrls : Option (List Chars))
    (isLoading : Bool) (hasPriorController : Bool) : SendEntry :=
  if (trimChars content).isEmpty &&
      (match imageUrls with | none => true | some l => l.isEmpty) then
    ⟨false, false⟩
  else if isLoading then
    ⟨false, false⟩
  else
    ⟨true, hasPriorController⟩

/-!
## Request payload built by the client
Embeds `src/hooks/use-chat.ts`, `sendMessage`, lines 103-118: only the last
entry of `allMessages` keeps its `imageUrls`; every earlier entry gets
`undefined`.
-/

/-- A client-side message as held in the hook's state. -/
structure ClientMsg where
  content : Chars
  sender : Chars
  imageUrls : Option (List Chars)
deriving DecidableEq, Repr

/-- One entry of the JSON body sent to `/api/chat`. -/
structure ApiMsg where
  role : Chars
  content : Chars
  imageUrls : Option (List Chars)
deriving DecidableEq, Repr

/-- The mapped entry (use-chat.ts lines 109-114): role from sender,
`imageUrls` only when `index === allMessages.length - 1`. -/
def toApiMsg (total i : Nat) (m : ClientMsg) : ApiMsg :=
  { role := if m.sender = "user".toList then "user".toList else "assistant".toList
    content := m.content
    imageUrls := if i = total - 1 then m.imageUrls else none }

/-- Index-tracking worker for the `allMessages.map((msg, index) => ...)` call. -/
def buildChatPayloadAux (total : Nat) : Nat → List ClientMsg → List ApiMsg
  | _, [] => []
  | i, m :: rest => toApiMsg total i m :: buildChatPayloadAux total (i + 1) rest

/-- The `messages` array of the request body (use-chat.ts lines 109-114). -/
def buildChatPayload (msgs : List ClientMsg) : List ApiMsg :=
  buildChatPayloadAux msgs.length 0 msgs

/-!
## Final persistence step of a turn
Embeds `src/hooks/use-chat.ts`, `sendMessage`, lines 187-201:
`if (accumulatedContent) \x7b await fetch("/api/messages", ...) \x7d`.
-/

/-- The record written to `/api/messages` for the finished AI reply. -/
structure PersistAiRequest where
  content : Chars
  role : Chars
deriving DecidableEq, Repr

/-- The post-stream persistence step: write the accumulated content as an
assistant message, but only when the accumulated content is truthy. -/
def persistAiMessage (accumulated : Chars) : Option PersistAiRequest :=
  if accumulated.isEmpty then none else some ⟨accumulated, "assistant".toList⟩

/-!
## Server-side image handling and multimodal formatting
Embeds `src/app/api/chat/route.ts`, lines 33-127.  The filesystem
(`fs.existsSync` + `fs.readFileSync` under `public/`) is the external blob
store; it is modelled by a function `resolve : Chars → Option (List Nat)`
from a relative path to the file's bytes (`none` for missing file or read
error, matching the `try/catch` + existence check).
-/

/-- Byte access `buffer[i]` (out of range never happens under the length
guards; default 0). -/
def byteAt (buf : List Nat) (i : Nat) : Nat := buf.getD i 0

/-- JPEG magic bytes `FF D8 FF` (route.ts line 35). -/
def jpegSig (b : List Nat) : Prop :=
  3 ≤ b.length ∧ byteAt b 0 = 0xFF ∧ byteAt b 1 = 0xD8 ∧ byteAt b 2 = 0xFF

/-- PNG magic bytes `89 50 4E 47` (route.ts line 38). -/
def pngSig (b : List Nat) : Prop :=
  8 ≤ b.length ∧ byteAt b 0 = 0x89 ∧ byteAt b 1 = 0x50 ∧ byteAt b 2 = 0x4E ∧ byteAt b 3 = 0x47

/-- GIF magic bytes `47 49 46 38` (route.ts line 41). -/
def gifSig (b : List Nat) : Prop :=
  4 ≤ b.length ∧ byteAt b 0 = 0x47 ∧ byteAt b 1 = 0x49 ∧ byteAt b 2 = 0x46 ∧ byteAt b 3 = 0x38

/-- WEBP magic bytes `52 49 46 46` with `57 45 42 50` at offset 8 (route.ts line 44). -/
def webpSig (b : List Nat) : Prop :=
  12 ≤ b.length ∧ byteAt b 0 = 0x52 ∧ byteAt b 1 = 0x49 ∧ byteAt b 2 = 0x46 ∧ byteAt b 3 = 0x46 ∧
    byteAt b 8 = 0x57 ∧ byteAt b 9 = 0x45 ∧ byteAt b 10 = 0x42 ∧ byteAt b 11 = 0x50

/-- BMP magic bytes `42 4D` (route.ts line 48). -/
def bmpSig (b : List Nat) : Prop :=
  2 ≤ b.length ∧ byteAt b 0 = 0x42 ∧ byteAt b 1 = 0x4D

instance (b : List Nat) : Decidable (jpegSig b) := by unfold jpegSig; infer_instance
instance (b : List Nat) : Decidable (pngSig b) := by unfold pngSig; infer_instance
instance (b : List Nat) : Decidable (gifSig b) := by unfold gifSig; infer_instance
instance (b : List Nat) : Decidable (webpSig b) := by unfold webpSig; infer_instance
instance (b : List Nat) : Decidable (bmpSig b) := by unfold bmpSig; infer_instance

/-- `detectMimeType` (route.ts lines 33-53): classify by magic bytes only,
default `image/jpeg`. -/
def detectMimeType (buffer : List Nat) : Chars :=
  if jpegSig buffer then "image/jpeg".toList
  else if pngSig buffer then "image/png".toList
  else if gifSig buffer then "image/gif".toList
  else if webpSig buffer then "image/webp".toList
  else if bmpSig buffer then "image/bmp".toList
  else "image/jpeg".toList

/-- Standard base64 alphabet. -/
def base64Alphabet : Chars :=
  "ABCDEFGHIJKLMNOPQRSTUVWXYZabcdefghijklmnopqrstuvwxyz0123456789+/".toList

/-- One base64 digit. -/
def b64At (n : Nat) : Char := base64Alphabet.getD n 'A'

/-- `Buffer.prototype.toString('base64')` over a byte list. -/
def base64Encode : List Nat → Chars
  | [] => []
  | [b1] =>
    [b64At (b1 / 4 % 64), b64At (b1 % 4 * 16), '=', '=']
  | [b1, b2] =>
    [b64At (b1 / 4 % 64), b64At (b1 % 4 * 16 + b2 / 16), b64At (b2 % 16 * 4), '=']
  | b1 :: b2 :: b3 :: rest =>
    b64At (b1 / 4 % 64) :: b64At (b1 % 4 * 16 + b2 / 16) ::
      b64At (b2 % 16 * 4 + b3 / 64) :: b64At (b3 % 64) :: base64Encode rest

/-- The `/api/uploads/` → `/uploads/` path rewrite (route.ts lines 64-67);
`"/api/uploads/"` has 13 characters. -/
def uploadsPath (url : Chars) : Chars :=
  if url.take 13 = "/api/uploads/".toList then "/uploads/".toList ++ url.drop 13 else url

/-- `convertLocalImageToBase64` (route.ts lines 56-89): pass through data URIs
and absolute URLs, otherwise resolve the rewritten path against the blob store
and build a `data:<mime>;base64,<payload>` URI; on a missing file or read
error return the original reference unchanged. -/
def convertLocalImageToBase64 (resolve : Chars → Option (List Nat)) (imageUrl : Chars) : Chars :=
  if imageUrl.take 5 = "data:".toList ∨ imageUrl.take 7 = "http://".toList ∨
      imageUrl.take 8 = "https://".toList then
    imageUrl
  else
    match resolve (uploadsPath imageUrl) with
    | none => imageUrl
    | some bytes =>
      "data:".toList ++ detectMimeType bytes ++ ";base64,".toList ++ base64Encode bytes

/-- One part of a multimodal content array. -/
inductive ContentPart where
  | text (t : Chars)
  | image_url (url : Chars)
deriving DecidableEq, Repr

/-- One formatted message as sent to the OpenAI-compatible backend: either a
plain `\x7brole, content\x7d` object or a multimodal content array. -/
inductive FormattedMsg where
  | text (role content : Chars)
  | multi (role : Chars) (parts : List ContentPart)
deriving DecidableEq, Repr

/-- One entry of `formatMessagesWithImages` (route.ts lines 93-126). -/
def formatOneMsg (resolve : Chars → Option (List Nat)) (msg : ApiMsg) : FormattedMsg :=
  match msg.imageUrls with
  | none => .text msg.role msg.content
  | some urls =>
    if urls.isEmpty then .text msg.role msg.content
    else
      let textParts :=
        if msg.content.isEmpty = false ∧ (trimChars msg.content).isEmpty = false then
          [ContentPart.text msg.content]
        else []
      .multi msg.role
        (textParts ++ urls.map (fun u => ContentPart.image_url (convertLocalImageToBase64 resolve u)))

/-- `formatMessagesWithImages` (route.ts lines 92-127). -/
def formatMessagesWithImages (resolve : Chars → Option (List Nat))
    (msgs : List ApiMsg) : List FormattedMsg :=
  msgs.map (formatOneMsg resolve)

/-!
## Server-side streaming response encoder
Embeds the `ReadableStream` bodies of `src/app/api/chat/route.ts` lines
219-235 (default DeepSeek branch) and lines 166-182 (local-API branch); the
two loops are textually identical.  A provider chunk is modelled by its
`chunk.choices[0]?.delta?.content` field: `none` when the chain is absent.
-/

/-- Lowercase hex digit. -/
def hexDigit (n : Nat) : Char := ("0123456789abcdef".toList).getD n '0'

/-- `JSON.stringify` escaping for one character of a string value. -/
def jsonEscapeChar (c : Char) : Chars :=
  if c = '"' then ['\\', '"']
  else if c = '\\' then ['\\', '\\']
  else if c = '\x08' then ['\\', 'b']
  else if c = '\t' then ['\\', 't']
  else if c = '\n' then ['\\', 'n']
  else if c = '\x0c' then ['\\', 'f']
  else if c = '\r' then ['\\', 'r']
  else if c.toNat < 0x20 then
    ['\\', 'u', '0', '0', hexDigit (c.toNat / 16), hexDigit (c.toNat % 16)]
  else [c]

/-- `JSON.stringify` of a string value. -/
def jsonString (s : Chars) : Chars :=
  '"' :: (s.map jsonEscapeChar).flatten ++ ['"']

/-- `JSON.stringify(\x7b content \x7d)`: the object with the single `content`
field. -/
def jsonContentObj (s : Chars) : Chars :=
  '\x7b' :: ("\"content\":".toList ++ jsonString s) ++ ['\x7d']

/-- One emitted SSE event: `` `data: ${JSON.stringify({ content })}\n\n` ``
(route.ts line 225). -/
def encodeEvent (content : Chars) : Chars :=
  "data: ".toList ++ jsonContentObj content ++ nl2

/-- `chunk.choices[0]?.delta?.content || ""`. -/
def deltaContent (ch : Option Chars) : Chars := ch.getD []

/-- The encoder loop (route.ts lines 222-228): for each provider chunk, emit
one framed event when the delta content is truthy, nothing otherwise; the
stream is closed after the loop with no terminal sentinel. -/
def encodeStream : List (Option Chars) → List Chars
  | [] => []
  | ch :: rest =>
    let content := deltaContent ch
    if content.isEmpty then encodeStream rest
    else encodeEvent content :: encodeStream rest

/-!
## Gemini one-shot branch
Embeds `src/unnamed/part_005` (the Gemini variant of the chat route),
lines 33-138.
-/

/-- One element of a Gemini `parts` array; `text` may be absent. -/
structure GeminiPart where
  text : Option Chars
deriving DecidableEq, Repr

/-- The `content` field of a Gemini candidate, in the shapes `collectText`
tolerates: an object with a `parts` array, a bare array of parts, or anything
else. -/
inductive GeminiContent where
  | parts (ps : List GeminiPart)
  | arr (ps : List GeminiPart)
  | other
deriving DecidableEq, Repr

/-- One Gemini candidate: a `content` field and an optional direct `text`
field. -/
structure GeminiCandidate where
  content : GeminiContent
  text : Option Chars
deriving DecidableEq, Repr

/-- A Gemini response body: its `candidates` array. -/
structure GeminiResponse where
  candidates : List GeminiCandidate
deriving DecidableEq, Repr

/-- `parts.map(p => p?.text).filter(Boolean).join("")` (part_005 line 96). -/
def partsText (ps : List GeminiPart) : Chars :=
  ((ps.map (fun p => p.text)).filterMap id |>.filter (fun t => t.isEmpty = false)).flatten

/-- The per-candidate extraction of `collectText` (part_005 lines 93-106):
prefer the joined parts text; otherwise fall back to a direct `text` field
whose trimmed form is truthy. -/
def candText (c : GeminiCandidate) : Option Chars :=
  let fromParts :=
    match c.content with
    | .parts ps => partsText ps
    | .arr ps => partsText ps
    | .other => []
  if fromParts.isEmpty = false then some fromParts
  else
    match c.text with
    | some t => if (trimChars t).isEmpty = false then some t else none
    | none => none

/-- The candidate loop of `collectText` (part_005 lines 92-108): first
candidate that yields text wins; default `""`. -/
def collectText : List GeminiCandidate → Chars
  | [] => []
  | c :: rest =>
    match candText c with
    | some t => t
    | none => collectText rest

/-- `collectText` over the whole response (part_005 line 110). -/
def collectTextResp (d : GeminiResponse) : Chars := collectText d.candidates

/-- The role-label alternatives of the cleaning regex, in alternation order. -/
def labelStrings : List Chars :=
  ["助手".toList, "用户".toList, "assistant".toList, "user".toList]

/-- Case-insensitive literal match at the front of `s` (the regex `/i` flag). -/
def ciStarts (pat s : Chars) : Bool :=
  (s.take pat.length).map Char.toLower = pat.map Char.toLower

/-- Try one alternative of the regex
`/^\s*(助手|用户|assistant|user)\s*[:：]\s*/i` against the
whitespace-stripped input: the label, optional whitespace, one colon
(half- or full-width), optional whitespace. -/
def tryLabel (lab s : Chars) : Option Chars :=
  if ciStarts lab s then
    match (s.drop lab.length).dropWhile isWS with
    | c :: rest => if c = ':' ∨ c = '：' then some (rest.dropWhile isWS) else none
    | [] => none
  else none

/-- First alternative of the label alternation that matches, in order. -/
def tryLabels : List Chars → Chars → Option Chars
  | [], _ => none
  | lab :: labs, s =>
    match tryLabel lab s with
    | some r => some r
    | none => tryLabels labs s

/-- `fullText.replace(/^\s*(助手|用户|assistant|user)\s*[:：]\s*/i, "")`
(part_005 line 112): when the anchored pattern matches, the match (leading
whitespace included) is removed; otherwise the string is unchanged. -/
def stripLeadingLabel (full : Chars) : Chars :=
  match tryLabels labelStrings (full.dropWhile isWS) with
  | some rest => rest
  | none => full

/-- Lines 112-114 of part_005: strip a leading role-label echo and trim; if
that removed everything, fall back to the trimmed original. -/
def cleanedText (full : Chars) : Chars :=
  let c := trimChars (stripLeadingLabel full)
  if c.isEmpty then trimChars full else c

/-- The one-shot SSE stream of the Gemini branch (part_005 lines 118-130):
one framed event when `cleaned` is truthy and trims truthy, otherwise a clean
close with zero events. -/
def geminiEvents (cleaned : Chars) : List Chars :=
  if cleaned.isEmpty = false ∧ (trimChars cleaned).isEmpty = false then
    [encodeEvent cleaned]
  else []

/-- The whole observable output of the Gemini branch for a given response
body. -/
def geminiBranch (resp : GeminiResponse) : List Chars :=
  geminiEvents (cleanedText (collectTextResp resp))

/-- The role label prefixed to one history turn (part_005 lines 45-47). -/
def geminiLabelLine (m : ApiMsg) : Chars :=
  (if m.role = "assistant".toList then "助手".toList else "用户".toList) ++
    ": ".toList ++ m.content

/-- `combinedText` (part_005 lines 43-50): system prompt plus one labelled
line per history turn, empties dropped by `filter(Boolean)`, joined with
`"\n\n"`. -/
def geminiCombinedText (sys : Chars) (msgs : List ApiMsg) : Chars :=
  List.intercalate nl2
    ((sys :: msgs.map geminiLabelLine).filter (fun s => s.isEmpty = false))

/-!
## Lemmas about leftmost-delimiter splitting
-/

theorem splitFirst_decomp (delim : Chars) :
    ∀ (l pre post : Chars), splitFirst delim l = some (pre, post) → l = pre ++ delim ++ post := by
  intro l
  induction l with
  | nil => intro pre post h; simp [splitFirst] at h
  | cons c cs ih =>
    intro pre post h
    rw [splitFirst] at h
    by_cases hp : (c :: cs).take delim.length = delim
    · rw [if_pos hp] at h
      simp only [Option.some.injEq, Prod.mk.injEq] at h
      obtain ⟨h1, h2⟩ := h
      subst h1; subst h2
      have hsplit := List.take_append_drop delim.length (c :: cs)
      rw [hp] at hsplit
      rw [List.nil_append]
      exact hsplit.symm
    · rw [if_neg hp] at h
      cases hcs : splitFirst delim cs with
      | none => rw [hcs] at h; cases h
      | some pq =>
        obtain ⟨p, q⟩ := pq
        rw [hcs] at h
        simp only [Option.some.injEq, Prod.mk.injEq] at h
        obtain ⟨h1, h2⟩ := h
        subst h1; subst h2
        rw [ih p q hcs]
        simp

theorem splitFirst_append (delim : Chars) :
    ∀ (l pre post c2 : Chars), splitFirst delim l = some (pre, post) →
      splitFirst delim (l ++ c2) = some (pre, post ++ c2) := by
  intro l
  induction l with
  | nil => intro pre post c2 h; simp [splitFirst] at h
  | cons c cs ih =>
    intro pre post c2 h
    rw [splitFirst] at h
    by_cases hp : (c :: cs).take delim.length = delim
    · rw [if_pos hp] at h
      simp only [Option.some.injEq, Prod.mk.injEq] at h
      obtain ⟨h1, h2⟩ := h
      subst h1; subst h2
      have hlen : delim.length ≤ (c :: cs).length := by
        have hl := congrArg List.length hp
        rw [List.length_take] at hl
        omega
      rw [List.cons_append, splitFirst]
      have htake : ((c :: cs) ++ c2).take delim.length = (c :: cs).take delim.length :=
        List.take_append_of_le_length hlen
      rw [List.cons_append] at htake
      rw [if_pos (htake.trans hp)]
      have hdrop : ((c :: cs) ++ c2).drop delim.length = (c :: cs).drop delim.length ++ c2 :=
        List.drop_append_of_le_length hlen
      rw [List.cons_append] at hdrop
      rw [hdrop]
    · rw [if_neg hp] at h
      cases hcs : splitFirst delim cs with
      | none => rw [hcs] at h; cases h
      | some pq =>
        obtain ⟨p, q⟩ := pq
        rw [hcs] at h
        simp only [Option.some.injEq, Prod.mk.injEq] at h
        obtain ⟨h1, h2⟩ := h
        subst h1; subst h2
        have hlen : delim.length ≤ (c :: cs).length := by
          have hl := congrArg List.length (splitFirst_decomp delim cs p q hcs)
          simp only [List.length_append] at hl
          simp only [List.length_cons, hl]
          omega
        rw [List.cons_append, splitFirst]
        have hp2 : ¬ ((c :: (cs ++ c2)).take delim.length = delim) := by
          intro hcon
          apply hp
          have htake : ((c :: cs) ++ c2).take delim.length = (c :: cs).take delim.length :=
            List.take_append_of_le_length hlen
          rw [List.cons_append] at htake
          rw [← htake]
          exact hcon
        rw [if_neg hp2, ih p q c2 hcs]

/-!
## Lemmas about the decoder's buffer-draining loop
-/

theorem drainFuel_congr (parse : Chars → Option Chars) :
    ∀ (n m : Nat) (buffer acc : Chars), buffer.length ≤ n → buffer.length ≤ m →
      drainFuel parse n buffer acc = drainFuel parse m buffer acc := by
  intro n
  induction n with
  | zero =>
    intro m buffer acc hn _
    have hb : buffer = [] := List.length_eq_zero.mp (Nat.le_zero.mp hn)
    subst hb
    cases m with
    | zero => rfl
    | succ m => simp [drainFuel, splitFirst]
  | succ n ih =>
    intro m buffer acc hn hm
    cases m with
    | zero =>
      have hb : buffer = [] := List.length_eq_zero.mp (Nat.le_zero.mp hm)
      subst hb
      simp [drainFuel, splitFirst]
    | succ m =>
      simp only [drainFuel]
      cases hs : splitFirst nl2 buffer with
      | none => rfl
      | some pq =>
        obtain ⟨block, rest⟩ := pq
        have hl := congrArg List.length (splitFirst_decomp nl2 buffer block rest hs)
        simp only [List.length_append, nl2, List.length_cons, List.length_nil] at hl
        exact ih m rest _ (by omega) (by omega)

theorem drainBuffer_none (parse : Chars → Option Chars) (buffer acc : Chars)
    (hs : splitFirst nl2 buffer = none) :
    drainBuffer parse buffer acc = (buffer, acc) := by
  cases buffer with
  | nil => rfl
  | cons c cs => simp [drainBuffer, drainFuel, hs]

theorem drainBuffer_some (parse : Chars → Option Chars) (buffer acc block rest : Chars)
    (hs : splitFirst nl2 buffer = some (block, rest)) :
    drainBuffer parse buffer acc = drainBuffer parse rest (processBlock parse acc block) := by
  cases buffer with
  | nil => simp [splitFirst] at hs
  | cons c cs =>
    have hl := congrArg List.length (splitFirst_decomp nl2 _ _ _ hs)
    simp only [List.length_append, nl2, List.length_cons, List.length_nil] at hl
    simp only [drainBuffer, List.length_cons, drainFuel, hs]
    exact drainFuel_congr parse cs.length rest.length rest _ (by omega) le_rfl

theorem drainBuffer_no_delim (parse : Chars → Option Chars) :
    ∀ (n : Nat) (buffer acc : Chars), buffer.length ≤ n →
      splitFirst nl2 (drainBuffer parse buffer acc).1 = none := by
  intro n
  induction n with
  | zero =>
    intro buffer acc h
    have hb : buffer = [] := List.length_eq_zero.mp (Nat.le_zero.mp h)
    subst hb
    rw [drainBuffer_none parse [] acc rfl]
    rfl
  | succ n ih =>
    intro buffer acc h
    cases hs : splitFirst nl2 buffer with
    | none => rw [drainBuffer_none parse _ _ hs]; exact hs
    | some pq =>
      obtain ⟨block, rest⟩ := pq
      rw [drainBuffer_some parse _ _ _ _ hs]
      have hl := congrArg List.length (splitFirst_decomp nl2 _ _ _ hs)
      simp only [List.length_append, nl2, List.length_cons, List.length_nil] at hl
      exact ih rest _ (by omega)

theorem drainBuffer_append (parse : Chars → Option Chars) :
    ∀ (n : Nat) (buffer acc c2 : Chars), buffer.length ≤ n →
      drainBuffer parse ((drainBuffer parse buffer acc).1 ++ c2) (drainBuffer parse buffer acc).2
        = drainBuffer parse (buffer ++ c2) acc := by
  intro n
  induction n with
  | zero =>
    intro buffer acc c2 h
    have hb : buffer = [] := List.length_eq_zero.mp (Nat.le_zero.mp h)
    subst hb
    rw [drainBuffer_none parse [] acc rfl]
  | succ n ih =>
    intro buffer acc c2 h
    cases hs : splitFirst nl2 buffer with
    | none => rw [drainBuffer_none parse _ _ hs]
    | some pq =>
      obtain ⟨block, rest⟩ := pq
      rw [drainBuffer_some parse _ _ _ _ hs]
      rw [drainBuffer_some parse _ _ _ _ (splitFirst_append nl2 buffer block rest c2 hs)]
      have hl := congrArg List.length (splitFirst_decomp nl2 _ _ _ hs)
      simp only [List.length_append, nl2, List.length_cons, List.length_nil] at hl
      exact ih rest _ c2 (by omega)

theorem foldl_feed_flatten (parse : Chars → Option Chars) :
    ∀ (chunks : List Chars) (s : Chars × Chars), splitFirst nl2 s.1 = none →
      List.foldl (feedChunk parse) s chunks = drainBuffer parse (s.1 ++ chunks.flatten) s.2 := by
  intro chunks
  induction chunks with
  | nil =>
    intro s h
    simp only [List.foldl_nil, List.flatten_nil, List.append_nil]
    rw [drainBuffer_none parse _ _ h]
  | cons c cs ih =>
    intro s h
    simp only [List.foldl_cons]
    have hfeed : feedChunk parse s c = drainBuffer parse (s.1 ++ c) s.2 := rfl
    rw [hfeed]
    rw [ih _ (drainBuffer_no_delim parse (s.1 ++ c).length _ _ le_rfl)]
    rw [drainBuffer_append parse (s.1 ++ c).length (s.1 ++ c) s.2 cs.flatten le_rfl]
    simp [List.append_assoc]

/-- C1: For every way of splitting an event stream into read chunks, the
decoder of `sendMessage` accumulates exactly the content it accumulates when
the whole stream arrives as one chunk; the residual buffer left at transport
completion is processed by the same per-line rule in both runs (the shared
`processBlock` flush inside `runDecoder`). -/
theorem sendMessage_decoder_chunk_invariance (parse : Chars → Option Chars)
    (chunks : List Chars) :
    runDecoder parse chunks = runDecoder parse [chunks.flatten] := by
  unfold runDecoder
  rw [foldl_feed_flatten parse chunks ([], []) rfl,
    foldl_feed_flatten parse [chunks.flatten] ([], []) rfl]
  simp

/-!
## Well-formed event streams
-/

/-- An SSE stream made of event blocks, each terminated by the blank-line
delimiter. -/
def renderStream (evs : List Chars) : Chars :=
  (evs.map (fun b => b ++ nl2)).flatten

/-- A block is well formed when the delimiter appended to it is the leftmost
delimiter occurrence: the block neither contains `"\n\n"` nor ends in
`"\n"`. -/
def wfBlock (b : Chars) : Prop :=
  splitFirst nl2 (b ++ nl2) = some (b, [])

instance (b : Chars) : Decidable (wfBlock b) := by unfold wfBlock; infer_instance

theorem drain_render (parse : Chars → Option Chars) :
    ∀ (evs : List Chars) (acc : Chars), (∀ b ∈ evs, wfBlock b) →
      drainBuffer parse (renderStream evs) acc
        = ([], List.foldl (processBlock parse) acc evs) := by
  intro evs
  induction evs with
  | nil =>
    intro acc _
    simp only [renderStream, List.map_nil, List.flatten_nil, List.foldl_nil]
    exact drainBuffer_none parse [] acc rfl
  | cons b tl ih =>
    intro acc h
    have hwf : wfBlock b := h b (by simp)
    have hs : splitFirst nl2 (renderStream (b :: tl)) = some (b, renderStream tl) := by
      have happ := splitFirst_append nl2 (b ++ nl2) b [] (renderStream tl) hwf
      simpa [renderStream, List.append_assoc] using happ
    rw [drainBuffer_some parse _ _ _ _ hs]
    rw [ih (processBlock parse acc b) (fun x hx => h x (by simp [hx]))]
    simp

theorem splitOnChar_of_not_mem (sep : Char) :
    ∀ (l : Chars), sep ∉ l → splitOnChar sep l = [l] := by
  intro l
  induction l with
  | nil => intro _; rfl
  | cons c cs ih =>
    intro h
    have hc : ¬ c = sep := fun hh => h (by simp [hh])
    have hcs : sep ∉ cs := fun hh => h (by simp [hh])
    simp [splitOnChar, if_neg hc, ih hcs]

theorem processBlock_noop (parse : Chars → Option Chars) (acc m : Chars)
    (hnl : '\n' ∉ m) (hpre : (trimChars m).take 6 = dataMark)
    (hparse : parse ((trimChars m).drop 6) = none) :
    processBlock parse acc m = acc := by
  unfold processBlock
  rw [splitOnChar_of_not_mem '\n' m hnl]
  simp [processLine, hpre, hparse]

theorem wf_of_no_newline : ∀ (m : Chars), '\n' ∉ m → wfBlock m := by
  intro m
  induction m with
  | nil => intro _; decide
  | cons c cs ih =>
    intro h
    have hc : ¬ c = '\n' := fun hh => h (by simp [hh])
    have hcs : wfBlock cs := ih (fun hh => h (by simp [hh]))
    unfold wfBlock at hcs ⊢
    rw [List.cons_append, splitFirst]
    have hp : ¬ ((c :: (cs ++ nl2)).take nl2.length = nl2) := by
      simp only [nl2, List.length_cons, List.length_nil, List.take_succ_cons, List.cons.injEq]
      intro hcon
      exact hc hcon.1
    rw [if_neg hp, hcs]

/-- C2: A single line whose trimmed form carries the `"data: "` marker but
whose payload fails to parse is a pure no-op: inserting it between the events
of a stream leaves the decoder's final accumulated content unchanged. -/
theorem decoder_malformed_line_is_noop (parse : Chars → Option Chars)
    (evs1 evs2 : List Chars) (m : Chars)
    (h1 : ∀ b ∈ evs1, wfBlock b) (h2 : ∀ b ∈ evs2, wfBlock b)
    (hnl : '\n' ∉ m)
    (hpre : (trimChars m).take 6 = dataMark)
    (hparse : parse ((trimChars m).drop 6) = none) :
    runDecoder parse [renderStream (evs1 ++ m :: evs2)]
      = runDecoder parse [renderStream (evs1 ++ evs2)] := by
  have hm : wfBlock m := wf_of_no_newline m hnl
  have hall1 : ∀ b ∈ evs1 ++ m :: evs2, wfBlock b := by
    intro b hb
    rcases List.mem_append.mp hb with hb | hb
    · exact h1 b hb
    · rcases List.mem_cons.mp hb with hb | hb
      · exact hb ▸ hm
      · exact h2 b hb
  have hall2 : ∀ b ∈ evs1 ++ evs2, wfBlock b := by
    intro b hb
    rcases List.mem_append.mp hb with hb | hb
    · exact h1 b hb
    · exact h2 b hb
  unfold runDecoder
  rw [foldl_feed_flatten parse _ ([], []) rfl, foldl_feed_flatten parse _ ([], []) rfl]
  simp only [List.flatten_cons, List.flatten_nil, List.append_nil, List.nil_append]
  rw [drain_render parse _ [] hall1, drain_render parse _ [] hall2]
  simp only [trimChars, List.dropWhile_nil, List.reverse_nil, List.isEmpty_nil, if_true]
  rw [List.foldl_append, List.foldl_append, List.foldl_cons]
  rw [processBlock_noop parse _ m hnl hpre hparse]

/-- A concrete payload interpretation: `"[1]"` parses and contributes the
content `"ok"`; everything else fails to parse. -/
def demoParse (p : Chars) : Option Chars :=
  if p = "[1]".toList then some ['o', 'k'] else none

/-- Witness for C2 at a concrete stream: a malformed `data:` line inserted
after a valid event leaves the accumulated content unchanged. -/
theorem decoder_malformed_line_is_noop_witness :
    ((trimChars "data: nope".toList).take 6 = dataMark ∧
      demoParse ((trimChars "data: nope".toList).drop 6) = none) ∧
    runDecoder demoParse [renderStream ["data: [1]".toList, "data: nope".toList]]
      = runDecoder demoParse [renderStream ["data: [1]".toList]] :=
  ⟨⟨by decide, by decide⟩,
    decoder_malformed_line_is_noop demoParse ["data: [1]".toList] [] "data: nope".toList
      (by decide) (by decide) (by decide) (by decide) (by decide)⟩

/-- C3 counterexample: with a turn in progress (`isLoading = true`) and a
prior in-flight controller present, a `sendMessage` call neither aborts the
prior operation nor proceeds — the `isLoading` early return fires before the
abort, refuting the claimed cancel-then-proceed behavior. -/
theorem sendMessage_busy_call_counterexample :
    (sendMessageEntry "hi".toList none true true).proceeds = false ∧
    (sendMessageEntry "hi".toList none true true).abortedPrior = false := by
  decide

/-- C3 (amended): a call while a turn is in progress is a no-op (no abort,
no new turn); a call with empty/whitespace content and no images is a no-op;
a call made while idle proceeds, aborting a leftover prior controller exactly
when one is stored. -/
theorem sendMessage_entry_guards (content : Chars) (imageUrls : Option (List Chars))
    (hasPrior : Bool) :
    (sendMessageEntry content imageUrls true hasPrior = ⟨false, false⟩) ∧
    ((trimChars content).isEmpty = true ∧ (imageUrls = none ∨ imageUrls = some []) →
      ∀ busy prior, sendMessageEntry content imageUrls busy prior = ⟨false, false⟩) ∧
    ((trimChars content).isEmpty = false ∨ (∃ l, imageUrls = some l ∧ l ≠ []) →
      sendMessageEntry content imageUrls false hasPrior = ⟨true, hasPrior⟩) := by
  refine ⟨?_, ?_, ?_⟩
  · unfold sendMessageEntry
    split
    · rfl
    · rfl
  · rintro ⟨he, him⟩ busy prior
    rcases him with rfl | rfl
    · simp [sendMessageEntry, he]
    · simp [sendMessageEntry, he]
  · intro h
    rcases h with h | h
    · simp [sendMessageEntry, h]
    · obtain ⟨l, hl1, hl2⟩ := h
      subst hl1
      cases l with
      | nil => exact absurd rfl hl2
      | cons a as => simp [sendMessageEntry]

/-- Witness for the amended C3 at concrete inputs: busy call is a no-op,
whitespace-only call is a no-op, idle call proceeds and aborts the stored
prior controller. -/
theorem sendMessage_entry_guards_witness :
    sendMessageEntry "hi".toList none true true = ⟨false, false⟩ ∧
    sendMessageEntry "  ".toList none false false = ⟨false, false⟩ ∧
    sendMessageEntry "hi".toList none false true = ⟨true, true⟩ :=
  ⟨(sendMessage_entry_guards "hi".toList none true).1,
    (sendMessage_entry_guards "  ".toList none false).2.1 ⟨by decide, Or.inl rfl⟩ false false,
    (sendMessage_entry_guards "hi".toList none true).2.2 (Or.inl (by decide))⟩

/-!
## Claims about the request payload and the formatter
-/

theorem buildChatPayloadAux_getElem (total : Nat) :
    ∀ (msgs : List ClientMsg) (i k : Nat),
      (buildChatPayloadAux total i msgs)[k]? = (msgs[k]?).map (toApiMsg total (i + k)) := by
  intro msgs
  induction msgs with
  | nil => intro i k; simp [buildChatPayloadAux]
  | cons m rest ih =>
    intro i k
    cases k with
    | zero => simp [buildChatPayloadAux]
    | succ k =>
      simp only [buildChatPayloadAux, List.getElem?_cons_succ]
      rw [ih (i + 1) k]
      have harith : i + 1 + k = i + (k + 1) := by omega
      rw [harith]

/-- C5: in the request body built by `sendMessage`, every history entry
except the last has its image references stripped to `undefined` — and thus
formats to a plain text entry — while the last entry keeps its original
`imageUrls`, whatever the original messages carried. -/
theorem payload_images_only_on_last (resolve : Chars → Option (List Nat))
    (msgs : List ClientMsg) (i : Nat) (hi : i + 1 < msgs.length) :
    (∀ m, (buildChatPayload msgs)[i]? = some m → m.imageUrls = none) ∧
    (∀ msg, msgs[i]? = some msg →
      (formatMessagesWithImages resolve (buildChatPayload msgs))[i]?
        = some (.text (if msg.sender = "user".toList then "user".toList else "assistant".toList)
            msg.content)) ∧
    (∀ msg, msgs[msgs.length - 1]? = some msg →
      (buildChatPayload msgs)[msgs.length - 1]?
        = some ⟨if msg.sender = "user".toList then "user".toList else "assistant".toList,
            msg.content, msg.imageUrls⟩) := by
  have hne : ¬ (i = msgs.length - 1) := by omega
  refine ⟨?_, ?_, ?_⟩
  · intro m hm
    rw [buildChatPayload, buildChatPayloadAux_getElem msgs.length msgs 0 i] at hm
    cases hx : msgs[i]? with
    | none => rw [hx] at hm; cases hm
    | some msg =>
      rw [hx] at hm
      simp at hm
      rw [← hm]
      simp [toApiMsg, hne]
  · intro msg hg
    rw [formatMessagesWithImages, List.getElem?_map,
      buildChatPayload, buildChatPayloadAux_getElem msgs.length msgs 0 i, hg]
    simp [toApiMsg, formatOneMsg, hne]
  · intro msg hg
    rw [buildChatPayload, buildChatPayloadAux_getElem msgs.length msgs 0 (msgs.length - 1), hg]
    simp [toApiMsg]

/-- A two-turn history where both turns carry images, used as the C5
witness input. -/
def demoMsgs : List ClientMsg :=
  [⟨['a'], "user".toList, some [['u']]⟩, ⟨['b'], "ai".toList, some [['v']]⟩]

/-- Witness for C5: in the two-turn demo history with images on both turns,
the non-final turn formats as a plain text entry with no image block. -/
theorem payload_images_only_on_last_witness :
    (0 + 1 < demoMsgs.length) ∧
    (formatMessagesWithImages (fun _ => none) (buildChatPayload demoMsgs))[0]?
      = some (.text "user".toList ['a']) := by
  refine ⟨by decide, ?_⟩
  have h := (payload_images_only_on_last (fun _ => none) demoMsgs 0 (by decide)).2.1
    ⟨['a'], "user".toList, some [['u']]⟩ (by decide)
  simpa using h

/-- C9: `formatMessagesWithImages` preserves the length and order of the
message list, and is the identity on every entry without image references:
the output entry is the plain `\x7brole, content\x7d` object with the same
role and the same content string. -/
theorem formatter_identity_on_text_only (resolve : Chars → Option (List Nat))
    (msgs : List ApiMsg) :
    (formatMessagesWithImages resolve msgs).length = msgs.length ∧
    (∀ (i : Nat) (msg : ApiMsg), msgs[i]? = some msg →
      (msg.imageUrls = none ∨ msg.imageUrls = some []) →
      (formatMessagesWithImages resolve msgs)[i]? = some (.text msg.role msg.content)) := by
  constructor
  · simp [formatMessagesWithImages]
  · intro i msg hg him
    rw [formatMessagesWithImages, List.getElem?_map, hg]
    rcases him with h | h <;> simp [formatOneMsg, h]

/-- Witness for C9 at a concrete one-entry history without images. -/
theorem formatter_identity_on_text_only_witness :
    ((⟨"user".toList, "hi".toList, none⟩ : ApiMsg).imageUrls = none) ∧
    (formatMessagesWithImages (fun _ => none) [⟨"user".toList, "hi".toList, none⟩])[0]?
      = some (.text "user".toList "hi".toList) :=
  ⟨rfl, (formatter_identity_on_text_only (fun _ => none)
    [⟨"user".toList, "hi".toList, none⟩]).2 0 ⟨"user".toList, "hi".toList, none⟩
    (by decide) (Or.inl rfl)⟩

/-- C7: after the stream completes, the accumulated content is persisted as
an assistant message exactly when it is nonempty; a stream that yields no
content (for example the degraded Gemini no-text case) creates no record. -/
theorem ai_reply_persisted_iff_nonempty (parse : Chars → Option Chars)
    (chunks : List Chars) :
    (persistAiMessage (runDecoder parse chunks) = none ↔ runDecoder parse chunks = []) ∧
    (runDecoder parse chunks ≠ [] →
      persistAiMessage (runDecoder parse chunks)
        = some ⟨runDecoder parse chunks, "assistant".toList⟩) := by
  constructor
  · unfold persistAiMessage
    constructor
    · intro h
      by_cases hx : (runDecoder parse chunks).isEmpty
      · exact List.isEmpty_iff.mp hx
      · rw [if_neg hx] at h; cases h
    · intro h
      rw [h]
      rfl
  · intro h
    unfold persistAiMessage
    rw [if_neg (by simpa [List.isEmpty_iff] using h)]

/-- Witness for C7: a one-event stream with content `"ok"` is persisted;
the persisted record carries exactly the accumulated content. -/
theorem ai_reply_persisted_iff_nonempty_witness :
    (runDecoder demoParse ["data: [1]\n\n".toList] ≠ []) ∧
    persistAiMessage (runDecoder demoParse ["data: [1]\n\n".toList])
      = some ⟨runDecoder demoParse ["data: [1]\n\n".toList], "assistant".toList⟩ :=
  ⟨by decide, (ai_reply_persisted_iff_nonempty demoParse ["data: [1]\n\n".toList]).2 (by decide)⟩

/-- C8: `detectMimeType` classifies a byte buffer purely by its magic-number
signature (JPEG, PNG, GIF, WEBP with the offset-8 marker, BMP), falls back to
`image/jpeg` for anything else, and the inline reference built from resolved
bytes has the exact shape `data:<mime>;base64,<payload>`. -/
theorem detectMime_magic_bytes (b : List Nat) :
    (jpegSig b → detectMimeType b = "image/jpeg".toList) ∧
    (pngSig b → detectMimeType b = "image/png".toList) ∧
    (gifSig b → detectMimeType b = "image/gif".toList) ∧
    (webpSig b → detectMimeType b = "image/webp".toList) ∧
    (bmpSig b → detectMimeType b = "image/bmp".toList) ∧
    (¬jpegSig b ∧ ¬pngSig b ∧ ¬gifSig b ∧ ¬webpSig b ∧ ¬bmpSig b →
      detectMimeType b = "image/jpeg".toList) ∧
    (∀ (resolve : Chars → Option (List Nat)) (url : Chars) (bytes : List Nat),
      ¬(url.take 5 = "data:".toList ∨ url.take 7 = "http://".toList ∨
          url.take 8 = "https://".toList) →
      resolve (uploadsPath url) = some bytes →
      convertLocalImageToBase64 resolve url
        = "data:".toList ++ detectMimeType bytes ++ ";base64,".toList ++ base64Encode bytes) := by
  refine ⟨?_, ?_, ?_, ?_, ?_, ?_, ?_⟩
  · intro h
    unfold detectMimeType
    rw [if_pos h]
  · intro h
    have hn1 : ¬ jpegSig b := by
      rintro ⟨_, h0, _, _⟩
      obtain ⟨_, h0', _, _, _⟩ := h
      omega
    unfold detectMimeType
    rw [if_neg hn1, if_pos h]
  · intro h
    have h0' := h.2.1
    have hn1 : ¬ jpegSig b := by rintro ⟨_, h0, _, _⟩; omega
    have hn2 : ¬ pngSig b := by rintro ⟨_, h0, _, _, _⟩; omega
    unfold detectMimeType
    rw [if_neg hn1, if_neg hn2, if_pos h]
  · intro h
    have h0' := h.2.1
    have hn1 : ¬ jpegSig b := by rintro ⟨_, h0, _, _⟩; omega
    have hn2 : ¬ pngSig b := by rintro ⟨_, h0, _, _, _⟩; omega
    have hn3 : ¬ gifSig b := by rintro ⟨_, h0, _, _, _⟩; omega
    unfold detectMimeType
    rw [if_neg hn1, if_neg hn2, if_neg hn3, if_pos h]
  · intro h
    have h0' := h.2.1
    have hn1 : ¬ jpegSig b := by rintro ⟨_, h0, _, _⟩; omega
    have hn2 : ¬ pngSig b := by rintro ⟨_, h0, _, _, _⟩; omega
    have hn3 : ¬ gifSig b := by rintro ⟨_, h0, _, _, _⟩; omega
    have hn4 : ¬ webpSig b := by rintro ⟨_, h0, _, _, _, _, _, _, _⟩; omega
    unfold detectMimeType
    rw [if_neg hn1, if_neg hn2, if_neg hn3, if_neg hn4, if_pos h]
  · rintro ⟨hn1, hn2, hn3, hn4, hn5⟩
    unfold detectMimeType
    rw [if_neg hn1, if_neg hn2, if_neg hn3, if_neg hn4, if_neg hn5]
  · intro resolve url bytes hno hres
    unfold convertLocalImageToBase64
    rw [if_neg hno, hres]

/-- Witness for C8: a buffer with the PNG signature resolves to a
`data:image/png;base64,...` inline reference, never consulting the `.jpg`
extension of the path. -/
theorem detectMime_magic_bytes_witness :
    pngSig [0x89, 0x50, 0x4E, 0x47, 0x0D, 0x0A, 0x1A, 0x0A] ∧
    detectMimeType [0x89, 0x50, 0x4E, 0x47, 0x0D, 0x0A, 0x1A, 0x0A] = "image/png".toList ∧
    convertLocalImageToBase64
        (fun p => if p = "/uploads/x.jpg".toList
          then some [0x89, 0x50, 0x4E, 0x47, 0x0D, 0x0A, 0x1A, 0x0A] else none)
        "/api/uploads/x.jpg".toList
      = "data:".toList ++ detectMimeType [0x89, 0x50, 0x4E, 0x47, 0x0D, 0x0A, 0x1A, 0x0A] ++
          ";base64,".toList ++ base64Encode [0x89, 0x50, 0x4E, 0x47, 0x0D, 0x0A, 0x1A, 0x0A] :=
  ⟨by decide,
    (detectMime_magic_bytes [0x89, 0x50, 0x4E, 0x47, 0x0D, 0x0A, 0x1A, 0x0A]).2.1 (by decide),
    (detectMime_magic_bytes [0x89, 0x50, 0x4E, 0x47, 0x0D, 0x0A, 0x1A, 0x0A]).2.2.2.2.2.2
      (fun p => if p = "/uploads/x.jpg".toList
        then some [0x89, 0x50, 0x4E, 0x47, 0x0D, 0x0A, 0x1A, 0x0A] else none)
      "/api/uploads/x.jpg".toList
      [0x89, 0x50, 0x4E, 0x47, 0x0D, 0x0A, 0x1A, 0x0A]
      (by decide) (by decide)⟩

/-- C6: the streaming encoder emits exactly one framed event per fragment
with truthy delta content — the event list is precisely the image of the
nonempty delta contents under `encodeEvent`, in order — and the stream ends
after those events with no terminal sentinel. -/
theorem encoder_one_event_per_fragment (chunks : List (Option Chars)) :
    encodeStream chunks
      = ((chunks.map deltaContent).filter (fun c => !c.isEmpty)).map encodeEvent := by
  induction chunks with
  | nil => rfl
  | cons ch rest ih =>
    by_cases h : (deltaContent ch).isEmpty
    · simp [encodeStream, List.filter_cons, h, ih]
    · simp [encodeStream, List.filter_cons, h, ih]

theorem encodeStream_mem (chunks : List (Option Chars)) :
    ∀ e ∈ encodeStream chunks, ∃ c, c ≠ [] ∧ e = encodeEvent c := by
  induction chunks with
  | nil => intro e he; cases he
  | cons ch rest ih =>
    intro e he
    by_cases h : (deltaContent ch).isEmpty
    · refine ih e ?_
      simpa [encodeStream, h] using he
    · have he' : e = encodeEvent (deltaContent ch) ∨ e ∈ encodeStream rest := by
        simpa [encodeStream, h] using he
      rcases he' with h1 | h1
      · refine ⟨deltaContent ch, ?_, h1⟩
        intro hnil
        rw [hnil] at h
        exact h rfl
      · exact ih e h1

theorem geminiBranch_mem (resp : GeminiResponse) :
    ∀ e ∈ geminiBranch resp, ∃ c, c ≠ [] ∧ e = encodeEvent c := by
  intro e he
  unfold geminiBranch geminiEvents at he
  by_cases h : (cleanedText (collectTextResp resp)).isEmpty = false ∧
      (trimChars (cleanedText (collectTextResp resp))).isEmpty = false
  · rw [if_pos h] at he
    have hee : e = encodeEvent (cleanedText (collectTextResp resp)) := by simpa using he
    refine ⟨cleanedText (collectTextResp resp), ?_, hee⟩
    intro hnil
    have h1 := h.1
    rw [hnil] at h1
    cases h1
  · rw [if_neg h] at he
    cases he

/-- C10: every event emitted by the chat endpoint — by the shared streaming
encoder loop of the default and local-API branches, and by the Gemini
one-shot branch — is the framing of some non-empty content string; empty or
missing delta contents produce no event at all. -/
theorem sse_events_carry_nonempty_content (chunks : List (Option Chars))
    (resp : GeminiResponse) (e : Chars) :
    (e ∈ encodeStream chunks → ∃ c, c ≠ [] ∧ e = encodeEvent c) ∧
    (e ∈ geminiBranch resp → ∃ c, c ≠ [] ∧ e = encodeEvent c) :=
  ⟨fun he => encodeStream_mem chunks e he, fun he => geminiBranch_mem resp e he⟩

/-- A concrete Gemini response whose first candidate carries the parts text
`"hi"`. -/
def demoGeminiResp : GeminiResponse :=
  ⟨[⟨.parts [⟨some ['h', 'i']⟩], none⟩]⟩

/-- Witness for C10: the single event of a one-fragment encoder stream, and
the single event of the Gemini branch for `demoGeminiResp`, both carry
nonempty content. -/
theorem sse_events_carry_nonempty_content_witness :
    (∃ c, c ≠ [] ∧ encodeEvent ['h', 'i'] = encodeEvent c) ∧
    (∃ c, c ≠ [] ∧ encodeEvent ['h', 'i'] = encodeEvent c) :=
  ⟨(sse_events_carry_nonempty_content [some ['h', 'i']] demoGeminiResp
      (encodeEvent ['h', 'i'])).1 (by decide),
    (sse_events_carry_nonempty_content [some ['h', 'i']] demoGeminiResp
      (encodeEvent ['h', 'i'])).2 (by decide)⟩

theorem dropWhile_isWS_idem (l : Chars) :
    (l.dropWhile isWS).dropWhile isWS = l.dropWhile isWS := by
  induction l with
  | nil => rfl
  | cons a t ih =>
    by_cases h : isWS a
    · simp [List.dropWhile_cons, h, ih]
    · simp [List.dropWhile_cons, h]

theorem trimChars_dropWhile (l : Chars) : trimChars (l.dropWhile isWS) = trimChars l := by
  unfold trimChars
  rw [dropWhile_isWS_idem]

theorem geminiLabelLine_ne_empty (m : ApiMsg) : (geminiLabelLine m).isEmpty = false := by
  unfold geminiLabelLine
  by_cases h : m.role = "assistant".toList
  · rw [if_pos h]; rfl
  · rw [if_neg h]; rfl

/-- C4: the Gemini one-shot branch: at most one fragment event is ever
emitted; an empty extracted text yields a stream with zero fragments and no
error; a truthy cleaned text yields exactly one framed fragment; a leading
`"助手: "` role-label echo is stripped from the extracted text; the request
text flattens the system prompt plus every labelled history turn joined by
blank lines; and a candidate whose `content` is a bare parts array is also
tolerated by the extractor. -/
theorem gemini_one_shot_branch (resp : GeminiResponse) (s sys : Chars)
    (msgs : List ApiMsg) (ps : List GeminiPart) (rest : List GeminiCandidate) :
    ((geminiBranch resp).length ≤ 1) ∧
    (collectTextResp resp = [] → geminiBranch resp = []) ∧
    ((trimChars (cleanedText (collectTextResp resp))).isEmpty = false →
      geminiBranch resp = [encodeEvent (cleanedText (collectTextResp resp))]) ∧
    ((trimChars s).isEmpty = false →
      cleanedText ('助' :: '手' :: ':' :: ' ' :: s) = trimChars s) ∧
    (sys ≠ [] →
      geminiCombinedText sys msgs = List.intercalate nl2 (sys :: msgs.map geminiLabelLine)) ∧
    ((partsText ps).isEmpty = false →
      collectText (⟨GeminiContent.arr ps, none⟩ :: rest) = partsText ps) := by
  refine ⟨?_, ?_, ?_, ?_, ?_, ?_⟩
  · unfold geminiBranch geminiEvents
    split <;> simp
  · intro h2
    unfold geminiBranch
    rw [h2]
    decide
  · intro h3
    unfold geminiBranch geminiEvents
    have h1 : (cleanedText (collectTextResp resp)).isEmpty = false := by
      cases hc : cleanedText (collectTextResp resp) with
      | nil =>
        rw [hc] at h3
        exact absurd h3 (by decide)
      | cons a t => rfl
    rw [if_pos ⟨h1, h3⟩]
  · intro hs
    have hstrip : stripLeadingLabel ('助' :: '手' :: ':' :: ' ' :: s) = s.dropWhile isWS := rfl
    simp only [cleanedText]
    rw [hstrip, trimChars_dropWhile]
    rw [if_neg (by simp [hs])]
  · intro hsys
    unfold geminiCombinedText
    congr 1
    apply List.filter_eq_self.mpr
    intro a ha
    rcases List.mem_cons.mp ha with rfl | ha
    · cases a with
      | nil => exact absurd rfl hsys
      | cons x xs => simp
    · obtain ⟨m, _, rfl⟩ := List.mem_map.mp ha
      simp [geminiLabelLine_ne_empty m]
  · intro hps
    simp [collectText, candText, hps]

/-- Witness for C4: at concrete inputs, the demo Gemini response yields
exactly one framed event; a response with no candidates yields zero events;
a `"助手: "` echo in front of `"hello"` is stripped; and a nonempty system
prompt with one assistant turn flattens with nothing filtered out. -/
theorem gemini_one_shot_branch_witness :
    (geminiBranch demoGeminiResp
      = [encodeEvent (cleanedText (collectTextResp demoGeminiResp))]) ∧
    (geminiBranch ⟨[]⟩ = []) ∧
    (cleanedText ('助' :: '手' :: ':' :: ' ' :: "hello".toList) = trimChars "hello".toList) ∧
    (geminiCombinedText ['s'] [⟨"assistant".toList, ['x'], none⟩]
      = List.intercalate nl2
          (['s'] :: [(⟨"assistant".toList, ['x'], none⟩ : ApiMsg)].map geminiLabelLine)) ∧
    (collectText [⟨GeminiContent.arr [⟨some ['h']⟩], none⟩] = partsText [⟨some ['h']⟩]) :=
  ⟨(gemini_one_shot_branch demoGeminiResp [] [] [] [] []).2.2.1 (by decide),
    (gemini_one_shot_branch ⟨[]⟩ [] [] [] [] []).2.1 (by decide),
    (gemini_one_shot_branch demoGeminiResp "hello".toList [] [] [] []).2.2.2.1 (by decide),
    (gemini_one_shot_branch demoGeminiResp [] ['s'] [⟨"assistant".toList, ['x'], none⟩] []
      []).2.2.2.2.1 (by decide),
    (gemini_one_shot_branch demoGeminiResp [] [] [] [⟨some ['h']⟩] []).2.2.2.2.2 (by decide)⟩

end Aichat
